import Mathlib

/-!
Shallow embedding of `lambda_function.py` (shutdown-aws-instances): a scheduled
cost-control lambda that lists running EC2 virtual machines and available RDS
database instances and stops them.  Provider interaction is modelled by an
explicit environment (the pages each listing call returns, and whether each
stop call raises), and every function produces the trace of console logs and
provider requests it performs, so that call counts, call order, argument
values and abort behavior are all observable.
-/

set_option autoImplicit false

namespace ShutdownAws

/-! ### Python values, as seen by `json.dumps`

`PyValue` covers the shapes relevant to the serializer: JSON-native scalars
and containers, `datetime.date` / `datetime.datetime` objects (carrying the
text their `isoformat()` method yields), and `other`, an arbitrary
non-temporal object that the base encoder cannot serialize. -/

inductive PyValue where
  | str (s : String)
  | int (n : Int)
  | boolean (b : Bool)
  | null
  | list (xs : List PyValue)
  | dict (kvs : List (String × PyValue))
  | datetime (iso : String)
  | date (iso : String)
  | other (name : String)
deriving Repr

/-! ### String escaping of `json.dumps` (default `ensure_ascii=True`)

Characters in the printable ASCII range `0x20`–`0x7e` other than `"` and `\`
pass through unchanged; `"`, `\` and the short control characters get a
backslash escape; everything else becomes `\uXXXX` (a surrogate pair beyond
the basic plane). -/

def hexDigit (n : Nat) : Char :=
  if n < 10 then Char.ofNat (48 + n) else Char.ofNat (87 + n)

def uEscape (n : Nat) : List Char :=
  ['\\', 'u', hexDigit (n / 4096 % 16), hexDigit (n / 256 % 16),
   hexDigit (n / 16 % 16), hexDigit (n % 16)]

def escapeChar (c : Char) : List Char :=
  if c = '\\' then ['\\', '\\']
  else if c = '"' then ['\\', '"']
  else if c = '\n' then ['\\', 'n']
  else if c = '\t' then ['\\', 't']
  else if c = '\r' then ['\\', 'r']
  else if c = '\x08' then ['\\', 'b']
  else if c = '\x0c' then ['\\', 'f']
  else if c.toNat < 0x20 then uEscape c.toNat
  else if c.toNat ≤ 0x7e then [c]
  else if c.toNat < 0x10000 then uEscape c.toNat
  else uEscape (0xd800 + (c.toNat - 0x10000) / 0x400) ++
       uEscape (0xdc00 + (c.toNat - 0x10000) % 0x400)

def escapeList : List Char → List Char
  | [] => []
  | c :: cs => escapeChar c ++ escapeList cs

/-- A character the JSON escaper passes through unchanged. -/
def jsonSafeChar (c : Char) : Bool :=
  0x20 ≤ c.toNat && c.toNat ≤ 0x7e && c ≠ '"' && c ≠ '\\'

/-- JSON string literal for `s`: quotes around the escaped characters. -/
def encodeStr (s : String) : String :=
  "\"" ++ String.mk (escapeList s.data) ++ "\""

/-- `', '.join`, the default item separator of `json.dumps`. -/
def joinComma : List String → String
  | [] => ""
  | [s] => s
  | s :: rest => s ++ ", " ++ joinComma rest

/-- Sequences a list of optional results; `none` models a raised exception. -/
def optList {α : Type} : List (Option α) → Option (List α)
  | [] => some []
  | Option.none :: _ => Option.none
  | some a :: rest => (optList rest).map (a :: ·)

/-! ### The two `default` methods

`json.JSONEncoder.default` raises `TypeError` for every object handed to it
(modelled as `Option.none`).  `DateTimeEncoder.default` overrides it: for a
`datetime.date` or `datetime.datetime` it returns `obj.isoformat()`; for
anything else it falls off the end of the `if`, returning Python `None`. -/

def JSONEncoder.default : PyValue → Option PyValue := fun _ => Option.none

def DateTimeEncoder.default : PyValue → Option PyValue
  | PyValue.datetime iso => some (PyValue.str iso)
  | PyValue.date iso => some (PyValue.str iso)
  | _ => some PyValue.null

/-- Is this value one of the temporal types `DateTimeEncoder` special-cases? -/
def isTemporal : PyValue → Bool
  | PyValue.datetime _ => true
  | PyValue.date _ => true
  | _ => false

/-! ### The encoding loop of `json.dumps`

Native scalars and containers are serialized directly; any other object `o`
is replaced by `df o` (the encoder's `default` method) and re-encoded.
`fuel` bounds the recursion depth, modelling Python's recursion limit;
`Option.none` models a raised exception (`TypeError` from `default`, or a
`RecursionError`). -/

def iterencode (df : PyValue → Option PyValue) : Nat → PyValue → Option String
  | 0, _ => Option.none
  | _ + 1, PyValue.str s => some (encodeStr s)
  | _ + 1, PyValue.int n => some (toString n)
  | _ + 1, PyValue.boolean b => some (if b then "true" else "false")
  | _ + 1, PyValue.null => some "null"
  | fuel + 1, PyValue.list xs =>
      (optList (xs.map (fun x => iterencode df fuel x))).map
        (fun parts => "[" ++ joinComma parts ++ "]")
  | fuel + 1, PyValue.dict kvs =>
      (optList (kvs.map (fun kv =>
          (iterencode df fuel kv.2).map (fun s => encodeStr kv.1 ++ ": " ++ s)))).map
        (fun parts => "\x7b" ++ joinComma parts ++ "\x7d")
  | fuel + 1, PyValue.datetime iso =>
      (df (PyValue.datetime iso)).bind (fun v => iterencode df fuel v)
  | fuel + 1, PyValue.date iso =>
      (df (PyValue.date iso)).bind (fun v => iterencode df fuel v)
  | fuel + 1, PyValue.other name =>
      (df (PyValue.other name)).bind (fun v => iterencode df fuel v)

/-! Nesting depth of a value: the recursion budget `json.dumps` needs. -/

mutual

def pyDepth : PyValue → Nat
  | PyValue.list xs => pyDepthList xs + 1
  | PyValue.dict kvs => pyDepthDict kvs + 1
  | PyValue.datetime _ => 1
  | PyValue.date _ => 1
  | PyValue.other _ => 1
  | _ => 0

def pyDepthList : List PyValue → Nat
  | [] => 0
  | v :: vs => max (pyDepth v) (pyDepthList vs)

def pyDepthDict : List (String × PyValue) → Nat
  | [] => 0
  | kv :: kvs => max (pyDepth kv.2) (pyDepthDict kvs)

end

/-- `json.dumps(v, cls=...)` with the encoder whose `default` method is `df`. -/
def dumps (df : PyValue → Option PyValue) (v : PyValue) : Option String :=
  iterencode df (pyDepth v + 1) v

/-! ### Provider-side data

An EC2 instance handle exposes only its `id` (plus the `stop` method).  An
RDS instance description is a dict; the code reads its `DBInstanceStatus`
and `DBInstanceIdentifier` keys, and the remaining keys (`extra`, which may
hold timestamps such as `InstanceCreateTime`) matter only to the
serializer. -/

structure EC2Instance where
  id : String
deriving Repr, DecidableEq

structure RDSRecord where
  DBInstanceIdentifier : String
  DBInstanceStatus : String
  extra : List (String × PyValue)
deriving Repr

/-- The dict the provider returned for this DB instance, as passed to
`json.dumps(db_instance, cls=DateTimeEncoder)`. -/
def recordToPy (r : RDSRecord) : PyValue :=
  PyValue.dict (("DBInstanceIdentifier", PyValue.str r.DBInstanceIdentifier) ::
    ("DBInstanceStatus", PyValue.str r.DBInstanceStatus) :: r.extra)

def serializeRecord (r : RDSRecord) : Option String :=
  dumps DateTimeEncoder.default (recordToPy r)

/-! ### Observable events

Each function yields the list of console lines it prints and the provider
requests it issues, in order. -/

inductive Event where
  | consoleLog (s : String)
  | ec2Describe (filterName : String) (filterValues : List String) (maxResults : Nat)
  | ec2StopReq (instId : String) (hibernate : Bool) (dryRun : Bool)
  | rdsDescribe
  | rdsStopReq (ident : String)
deriving Repr, DecidableEq

/-- `RUNNING_INSTANCES_STATE_CODE = 16` (module constant). -/
def RUNNING_INSTANCES_STATE_CODE : Nat := 16

/-- The parameters of the filtered EC2 listing request issued by
`get_ec2_vm_list`: filter `instance-state-code = str(16)`, `MaxResults=20`. -/
def describeRequest : Event :=
  Event.ec2Describe "instance-state-code" [toString RUNNING_INSTANCES_STATE_CODE] 20

/-- `get_ec2_vm_list()`.  The boto3 resource collection
`ec2.instances.filter(Filters=..., MaxResults=20)` passes `MaxResults`
through as the page size of each underlying describe request and then
auto-paginates: iterating the collection yields every instance of every
page.  `pages` is the provider's paged response; each page holds at most
`MaxResults` records.  The function appends every yielded instance to
`result`. -/
def get_ec2_vm_list (pages : List (List EC2Instance)) :
    List Event × List EC2Instance :=
  (pages.map (fun _ => describeRequest),
   pages.flatten.foldl (fun result inst => result ++ [inst]) [])

/-- `get_rds_db_list()`: drains the `describe_db_instances` paginator,
appending every record of every page. -/
def get_rds_db_list (pages : List (List RDSRecord)) :
    List Event × List RDSRecord :=
  (pages.map (fun _ => Event.rdsDescribe),
   pages.foldl (fun result page =>
     page.foldl (fun res db_instance => res ++ [db_instance]) result) [])

/-- `turnoff_ec2_vms(ec2_vm_list, dry_run)`.  For each instance: print
`Stopping VM: {id}`, issue `instance.stop(Hibernate=False, DryRun=dry_run)`;
a raised `ClientError` (modelled by `beh id = some msg`) is caught and
printed, and the loop continues. -/
def turnoff_ec2_vms : List EC2Instance → Bool → (String → Option String) → List Event
  | [], _, _ => []
  | i :: rest, dry_run, beh =>
    Event.consoleLog ("Stopping VM: " ++ i.id) ::
    Event.ec2StopReq i.id false dry_run ::
    ((match beh i.id with
      | some msg => [Event.consoleLog ("Exception: " ++ msg)]
      | Option.none => []) ++ turnoff_ec2_vms rest dry_run beh)

/-- `stop_rds_dbs(rds_db_list, dry_run)`.  For each record: print the
serialized record; if `dry_run`, continue; if the status is `'stopped'`,
print a no-op notice; otherwise call
`stop_db_instance(DBInstanceIdentifier=...)`.  Nothing is caught here: a
raised error (modelled by `beh ident = true`, or a serializer failure)
aborts the remaining iterations.  The `Bool` of the result records whether
the call raised. -/
def stop_rds_dbs : List RDSRecord → Bool → (String → Bool) → List Event × Bool
  | [], _, _ => ([], false)
  | r :: rest, dry_run, beh =>
    match serializeRecord r with
    | Option.none => ([], true)
    | some s =>
      let logEv := Event.consoleLog ("Stopping DB: " ++ s)
      if dry_run then
        let next := stop_rds_dbs rest dry_run beh
        (logEv :: next.1, next.2)
      else if r.DBInstanceStatus == "stopped" then
        let next := stop_rds_dbs rest dry_run beh
        (logEv ::
         Event.consoleLog ("DB Instance " ++ r.DBInstanceIdentifier ++ " is stopped") ::
         next.1, next.2)
      else if beh r.DBInstanceIdentifier then
        ([logEv, Event.rdsStopReq r.DBInstanceIdentifier], true)
      else
        let next := stop_rds_dbs rest dry_run beh
        (logEv :: Event.rdsStopReq r.DBInstanceIdentifier :: next.1, next.2)

/-- The provider-side environment of one invocation: what the two listing
calls return, and which stop calls raise. -/
structure Env where
  ec2Pages : List (List EC2Instance)
  ec2StopBeh : String → Option String
  rdsPages : List (List RDSRecord)
  rdsStopBeh : String → Bool

/-- `lambda_handler(event, context)`: print, list EC2 VMs, print, stop them
with `dry_run=False`, list RDS DBs, stop them with `dry_run=False`. -/
def lambda_handler (env : Env) : List Event × Bool :=
  let vms := get_ec2_vm_list env.ec2Pages
  let ec2Stops := turnoff_ec2_vms vms.2 false env.ec2StopBeh
  let dbs := get_rds_db_list env.rdsPages
  let rdsStops := stop_rds_dbs dbs.2 false env.rdsStopBeh
  (Event.consoleLog "getting vm list" :: vms.1 ++
   Event.consoleLog "got ec2 list" :: ec2Stops ++
   dbs.1 ++ rdsStops.1, rdsStops.2)

/-! ### Trace observations -/

/-- The id of an EC2 stop request, if the event is one. -/
def ec2StopIdOf : Event → Option String
  | Event.ec2StopReq i _ _ => some i
  | _ => Option.none

/-- The full argument triple of an EC2 stop request. -/
def ec2StopArgsOf : Event → Option (String × Bool × Bool)
  | Event.ec2StopReq i h d => some (i, h, d)
  | _ => Option.none

/-- The identifier of an RDS stop request, if the event is one. -/
def rdsStopIdOf : Event → Option String
  | Event.rdsStopReq i => some i
  | _ => Option.none

def ec2StopIds (tr : List Event) : List String := tr.filterMap ec2StopIdOf

def ec2StopArgs (tr : List Event) : List (String × Bool × Bool) :=
  tr.filterMap ec2StopArgsOf

def rdsStopIds (tr : List Event) : List String := tr.filterMap rdsStopIdOf

/-- A provider operation, abstracting an `Event` to the call made (console
output dropped). -/
inductive ProviderOp where
  | ec2List
  | ec2Stop (instId : String) (dryRun : Bool)
  | rdsList
  | rdsStop (ident : String)
deriving Repr, DecidableEq

def providerOpOf : Event → Option ProviderOp
  | Event.ec2Describe _ _ _ => some ProviderOp.ec2List
  | Event.ec2StopReq i _ d => some (ProviderOp.ec2Stop i d)
  | Event.rdsDescribe => some ProviderOp.rdsList
  | Event.rdsStopReq i => some (ProviderOp.rdsStop i)
  | Event.consoleLog _ => Option.none

def providerOps (tr : List Event) : List ProviderOp := tr.filterMap providerOpOf

/-! ### Concrete inputs used to exercise the claims on closed values -/

/-- The text `isoformat()` yields for a temporal value. -/
def isoOf : PyValue → String
  | PyValue.datetime s => s
  | PyValue.date s => s
  | _ => ""

def lst3 : List RDSRecord :=
  [⟨"db-a", "available", []⟩, ⟨"db-b", "stopped", []⟩]

def beh4 : String → Option String :=
  fun s => if s == "i-1" then some "boom" else Option.none

def pre5 : List RDSRecord := [⟨"db-0", "available", []⟩]

def r5 : RDSRecord := ⟨"db-1", "available", []⟩

def post5 : List RDSRecord := [⟨"db-2", "available", []⟩]

def beh5 : String → Bool := fun s => s == "db-1"

def env5 : Env := ⟨[], fun _ => Option.none, [pre5 ++ r5 :: post5], beh5⟩

def r7extra : List (String × PyValue) :=
  [("InstanceCreateTime", PyValue.datetime "2024-05-06T07:08:09")]

def env8 : Env :=
  ⟨[[⟨"i-0"⟩]], fun _ => Option.none, [[⟨"db-0", "available", []⟩]], fun _ => false⟩

def r9extra : List (String × PyValue) := [("Endpoint", PyValue.other "Endpoint")]

/-! ## Helper lemmas -/

theorem foldl_push {α : Type} (l acc : List α) :
    l.foldl (fun r x => r ++ [x]) acc = acc ++ l := by
  induction l generalizing acc with
  | nil => simp
  | cons x xs ih => simp [List.foldl_cons, ih]

theorem foldl_append_acc {α : Type} (pages : List (List α)) (acc : List α) :
    pages.foldl (fun r p => r ++ p) acc = acc ++ pages.flatten := by
  induction pages generalizing acc with
  | nil => simp
  | cons p ps ih => simp [List.foldl_cons, ih]

theorem get_ec2_vm_list_records (pages : List (List EC2Instance)) :
    (get_ec2_vm_list pages).2 = pages.flatten := by
  simp [get_ec2_vm_list, foldl_push]

theorem get_rds_db_list_records (pages : List (List RDSRecord)) :
    (get_rds_db_list pages).2 = pages.flatten := by
  have h : ∀ (acc : List RDSRecord),
      pages.foldl (fun result page =>
        page.foldl (fun res db => res ++ [db]) result) acc = acc ++ pages.flatten := by
    intro acc
    have : (fun (result : List RDSRecord) (page : List RDSRecord) =>
        page.foldl (fun res db => res ++ [db]) result) =
        (fun result page => result ++ page) := by
      funext result page
      exact foldl_push page result
    rw [this, foldl_append_acc]
  simpa [get_rds_db_list] using h []

theorem turnoff_ec2_vms_args (lst : List EC2Instance) (dry_run : Bool)
    (beh : String → Option String) :
    ec2StopArgs (turnoff_ec2_vms lst dry_run beh) =
      lst.map (fun i => (i.id, false, dry_run)) := by
  induction lst with
  | nil => rfl
  | cons i rest ih =>
    cases hb : beh i.id <;>
      simp [turnoff_ec2_vms, ec2StopArgs, ec2StopArgsOf, hb] <;>
      simpa [ec2StopArgs] using ih

theorem pyDepth_le_of_mem_list {v : PyValue} {vs : List PyValue} (h : v ∈ vs) :
    pyDepth v ≤ pyDepthList vs := by
  induction vs with
  | nil => cases h
  | cons w ws ih =>
    rcases List.mem_cons.mp h with rfl | hmem
    · simp [pyDepthList]
    · exact le_trans (ih hmem) (by simp [pyDepthList])

theorem pyDepth_le_of_mem_dict {kv : String × PyValue} {kvs : List (String × PyValue)}
    (h : kv ∈ kvs) : pyDepth kv.2 ≤ pyDepthDict kvs := by
  induction kvs with
  | nil => cases h
  | cons w ws ih =>
    rcases List.mem_cons.mp h with rfl | hmem
    · simp [pyDepthDict]
    · exact le_trans (ih hmem) (by simp [pyDepthDict])

theorem optMap_isSome {α β : Type} (f : α → β) (x : Option α) :
    (x.map f).isSome = x.isSome := by
  cases x <;> rfl

theorem optList_isSome {α : Type} {l : List (Option α)} (h : ∀ o ∈ l, o.isSome) :
    (optList l).isSome := by
  induction l with
  | nil => simp [optList]
  | cons o rest ih =>
    match o, h o (by simp) with
    | some a, _ =>
      have := ih (fun o ho => h o (by simp [ho]))
      simp [optList, optMap_isSome]
      exact this
    | Option.none, hcontra => simp at hcontra

theorem iterencode_dte_isSome :
    ∀ (fuel : Nat) (v : PyValue), pyDepth v < fuel →
      (iterencode DateTimeEncoder.default fuel v).isSome := by
  intro fuel
  induction fuel with
  | zero => intro v h; omega
  | succ fuel ih =>
    intro v hv
    match v with
    | PyValue.str s => simp [iterencode]
    | PyValue.int n => simp [iterencode]
    | PyValue.boolean b => simp [iterencode]
    | PyValue.null => simp [iterencode]
    | PyValue.list xs =>
      have hd : pyDepthList xs < fuel := by
        have : pyDepth (PyValue.list xs) = pyDepthList xs + 1 := by simp [pyDepth]
        omega
      simp only [iterencode, optMap_isSome]
      apply optList_isSome
      intro o ho
      rcases List.mem_map.mp ho with ⟨x, hx, rfl⟩
      exact ih x (lt_of_le_of_lt (pyDepth_le_of_mem_list hx) hd)
    | PyValue.dict kvs =>
      have hd : pyDepthDict kvs < fuel := by
        have : pyDepth (PyValue.dict kvs) = pyDepthDict kvs + 1 := by simp [pyDepth]
        omega
      simp only [iterencode, optMap_isSome]
      apply optList_isSome
      intro o ho
      rcases List.mem_map.mp ho with ⟨kv, hkv, rfl⟩
      rw [optMap_isSome]
      exact ih kv.2 (lt_of_le_of_lt (pyDepth_le_of_mem_dict hkv) hd)
    | PyValue.datetime iso =>
      have hf : 0 < fuel := by
        have : pyDepth (PyValue.datetime iso) = 1 := by simp [pyDepth]
        omega
      have : pyDepth (PyValue.str iso) < fuel := by simp [pyDepth]; omega
      simpa [iterencode, DateTimeEncoder.default] using ih (PyValue.str iso) this
    | PyValue.date iso =>
      have hf : 0 < fuel := by
        have : pyDepth (PyValue.date iso) = 1 := by simp [pyDepth]
        omega
      have : pyDepth (PyValue.str iso) < fuel := by simp [pyDepth]; omega
      simpa [iterencode, DateTimeEncoder.default] using ih (PyValue.str iso) this
    | PyValue.other name =>
      have hf : 0 < fuel := by
        have : pyDepth (PyValue.other name) = 1 := by simp [pyDepth]
        omega
      have : pyDepth PyValue.null < fuel := by simp [pyDepth]; omega
      simpa [iterencode, DateTimeEncoder.default] using ih PyValue.null this

theorem dumps_dte_isSome (v : PyValue) :
    (dumps DateTimeEncoder.default v).isSome :=
  iterencode_dte_isSome (pyDepth v + 1) v (by omega)

theorem serializeRecord_isSome (r : RDSRecord) : (serializeRecord r).isSome :=
  dumps_dte_isSome (recordToPy r)

theorem turnoff_ec2_vms_ids (lst : List EC2Instance) (dry_run : Bool)
    (beh : String → Option String) :
    ec2StopIds (turnoff_ec2_vms lst dry_run beh) = lst.map EC2Instance.id := by
  induction lst with
  | nil => rfl
  | cons i rest ih =>
    cases hb : beh i.id <;>
      simp [turnoff_ec2_vms, ec2StopIds, ec2StopIdOf, hb] <;>
      simpa [ec2StopIds] using ih

theorem stop_rds_dbs_dry_run (lst : List RDSRecord) (beh : String → Bool) :
    rdsStopIds (stop_rds_dbs lst true beh).1 = [] ∧
      (stop_rds_dbs lst true beh).2 = false := by
  induction lst with
  | nil => exact ⟨rfl, rfl⟩
  | cons r rest ih =>
    obtain ⟨s, hs⟩ := Option.isSome_iff_exists.mp (serializeRecord_isSome r)
    simpa [stop_rds_dbs, hs, rdsStopIds, rdsStopIdOf] using ih

theorem stop_rds_dbs_no_raise_ids (lst : List RDSRecord) :
    rdsStopIds (stop_rds_dbs lst false (fun _ => false)).1 =
      (lst.filter (fun r => !(r.DBInstanceStatus == "stopped"))).map
        RDSRecord.DBInstanceIdentifier ∧
      (stop_rds_dbs lst false (fun _ => false)).2 = false := by
  induction lst with
  | nil => exact ⟨rfl, rfl⟩
  | cons r rest ih =>
    obtain ⟨s, hs⟩ := Option.isSome_iff_exists.mp (serializeRecord_isSome r)
    by_cases hst : r.DBInstanceStatus = "stopped"
    · simpa [stop_rds_dbs, hs, hst, rdsStopIds, rdsStopIdOf, List.filter_cons] using ih
    · have hst' : (r.DBInstanceStatus == "stopped") = false := by
        simpa using hst
      simpa [stop_rds_dbs, hs, hst', rdsStopIds, rdsStopIdOf, List.filter_cons] using ih

theorem stop_rds_dbs_notice {r : RDSRecord} {lst : List RDSRecord}
    (hmem : r ∈ lst) (hst : r.DBInstanceStatus = "stopped") :
    Event.consoleLog ("DB Instance " ++ r.DBInstanceIdentifier ++ " is stopped") ∈
      (stop_rds_dbs lst false (fun _ => false)).1 := by
  induction lst with
  | nil => cases hmem
  | cons q rest ih =>
    obtain ⟨s, hs⟩ := Option.isSome_iff_exists.mp (serializeRecord_isSome q)
    rcases List.mem_cons.mp hmem with rfl | hmem'
    · simp [stop_rds_dbs, hs, hst]
    · have htail := ih hmem'
      by_cases hq : q.DBInstanceStatus = "stopped"
      · simp [stop_rds_dbs, hs, hq]
        first
        | exact htail
        | exact Or.inr htail
        | exact Or.inr (Or.inr htail)
      · have hq' : (q.DBInstanceStatus == "stopped") = false := by simpa using hq
        simp [stop_rds_dbs, hs, hq']
        first
        | exact htail
        | exact Or.inr htail

theorem stop_rds_dbs_abort (pre : List RDSRecord) (r : RDSRecord)
    (post : List RDSRecord) (beh : String → Bool)
    (hpre : ∀ p ∈ pre, beh p.DBInstanceIdentifier = false)
    (hr : beh r.DBInstanceIdentifier = true)
    (hst : r.DBInstanceStatus ≠ "stopped") :
    rdsStopIds (stop_rds_dbs (pre ++ r :: post) false beh).1 =
      (pre.filter (fun p => !(p.DBInstanceStatus == "stopped"))).map
        RDSRecord.DBInstanceIdentifier ++ [r.DBInstanceIdentifier] ∧
      (stop_rds_dbs (pre ++ r :: post) false beh).2 = true := by
  induction pre with
  | nil =>
    obtain ⟨s, hs⟩ := Option.isSome_iff_exists.mp (serializeRecord_isSome r)
    have hst' : (r.DBInstanceStatus == "stopped") = false := by simpa using hst
    simp [stop_rds_dbs, hs, hst', hr, rdsStopIds, rdsStopIdOf]
  | cons p ps ih =>
    obtain ⟨s, hs⟩ := Option.isSome_iff_exists.mp (serializeRecord_isSome p)
    have hbp : beh p.DBInstanceIdentifier = false := hpre p (by simp)
    have ih' := ih (fun q hq => hpre q (by simp [hq]))
    by_cases hp : p.DBInstanceStatus = "stopped"
    · simpa [stop_rds_dbs, hs, hp, hbp, rdsStopIds, rdsStopIdOf, List.filter_cons]
        using ih'
    · have hp' : (p.DBInstanceStatus == "stopped") = false := by simpa using hp
      simpa [stop_rds_dbs, hs, hp', hbp, rdsStopIds, rdsStopIdOf, List.filter_cons]
        using ih'

theorem turnoff_exception_logged (pre : List EC2Instance) (i : EC2Instance)
    (post : List EC2Instance) (dry_run : Bool) (beh : String → Option String)
    (msg : String) (h : beh i.id = some msg) :
    Event.consoleLog ("Exception: " ++ msg) ∈
      turnoff_ec2_vms (pre ++ i :: post) dry_run beh := by
  induction pre with
  | nil => simp [turnoff_ec2_vms, h]
  | cons p ps ih =>
    cases hb : beh p.id <;> simp [turnoff_ec2_vms, hb] <;> right <;>
      [skip; right] <;> simpa using ih

theorem escapeChar_safe {c : Char} (h1 : 0x20 ≤ c.toNat) (h2 : c.toNat ≤ 0x7e)
    (h3 : c ≠ '"') (h4 : c ≠ '\\') : escapeChar c = [c] := by
  have hn : c ≠ '\n' := by rintro rfl; exact absurd h1 (by decide)
  have ht : c ≠ '\t' := by rintro rfl; exact absurd h1 (by decide)
  have hr : c ≠ '\r' := by rintro rfl; exact absurd h1 (by decide)
  have hb : c ≠ '\x08' := by rintro rfl; exact absurd h1 (by decide)
  have hf : c ≠ '\x0c' := by rintro rfl; exact absurd h1 (by decide)
  have hlt : ¬ c.toNat < 0x20 := by omega
  simp [escapeChar, h3, h4, hn, ht, hr, hb, hf, hlt, h2]

theorem escapeList_safe {l : List Char} (h : ∀ c ∈ l, jsonSafeChar c = true) :
    escapeList l = l := by
  induction l with
  | nil => rfl
  | cons c cs ih =>
    have hc := h c (by simp)
    simp only [jsonSafeChar, Bool.and_eq_true, decide_eq_true_eq] at hc
    rw [escapeList, escapeChar_safe hc.1.1.1 hc.1.1.2 hc.1.2 hc.2,
      ih (fun d hd => h d (by simp [hd]))]
    rfl

theorem string_mk_data (s : String) : String.mk s.data = s := rfl

theorem encodeStr_safe {s : String} (h : ∀ c ∈ s.data, jsonSafeChar c = true) :
    encodeStr s = "\"" ++ s ++ "\"" := by
  rw [encodeStr, escapeList_safe h, string_mk_data]

theorem joinComma_cons (s t : String) (rest : List String) :
    joinComma (s :: t :: rest) = s ++ ", " ++ joinComma (t :: rest) := rfl

theorem joinComma_infix (p1 : List String) (x : String) (p2 : List String) :
    ∃ a b : String, joinComma (p1 ++ x :: p2) = a ++ x ++ b := by
  induction p1 with
  | nil =>
    cases p2 with
    | nil => exact ⟨"", "", by simp [joinComma, String.empty_append, String.append_empty]⟩
    | cons q qs =>
      refine ⟨"", ", " ++ joinComma (q :: qs), ?_⟩
      rw [List.nil_append, joinComma_cons, String.empty_append, String.append_assoc]
  | cons p ps ih =>
    obtain ⟨a, b, hab⟩ := ih
    refine ⟨p ++ ", " ++ a, b, ?_⟩
    have hne : ps ++ x :: p2 ≠ [] := by simp
    obtain ⟨t, rest, hcons⟩ : ∃ t rest, ps ++ x :: p2 = t :: rest := by
      cases hps : ps ++ x :: p2 with
      | nil => exact absurd hps hne
      | cons t rest => exact ⟨t, rest, rfl⟩
    calc joinComma ((p :: ps) ++ x :: p2)
        = p ++ ", " ++ joinComma (ps ++ x :: p2) := by
          rw [List.cons_append, hcons]; exact joinComma_cons _ _ _
      _ = p ++ ", " ++ (a ++ x ++ b) := by rw [hab]
      _ = p ++ ", " ++ a ++ x ++ b := by simp [String.append_assoc]

theorem optList_split {α : Type} (l1 l2 : List (Option α)) (x : α)
    (h1 : ∀ o ∈ l1, o.isSome) (h2 : ∀ o ∈ l2, o.isSome) :
    ∃ p1 p2, optList (l1 ++ some x :: l2) = some (p1 ++ x :: p2) := by
  induction l1 with
  | nil =>
    obtain ⟨p2, hp2⟩ := Option.isSome_iff_exists.mp (optList_isSome h2)
    exact ⟨[], p2, by simp [optList, hp2]⟩
  | cons o rest ih =>
    obtain ⟨a, ha⟩ := Option.isSome_iff_exists.mp (h1 o (by simp))
    obtain ⟨p1, p2, hp⟩ := ih (fun o ho => h1 o (by simp [ho]))
    exact ⟨a :: p1, p2, by simp [ha, optList, hp]⟩

theorem iterencode_dte_datetime (fuel : Nat) (iso : String) (h : 1 < fuel) :
    iterencode DateTimeEncoder.default fuel (PyValue.datetime iso) =
      some (encodeStr iso) := by
  match fuel, h with
  | f + 2, _ => rfl

theorem iterencode_dte_date (fuel : Nat) (iso : String) (h : 1 < fuel) :
    iterencode DateTimeEncoder.default fuel (PyValue.date iso) =
      some (encodeStr iso) := by
  match fuel, h with
  | f + 2, _ => rfl

theorem iterencode_dte_other (fuel : Nat) (name : String) (h : 1 < fuel) :
    iterencode DateTimeEncoder.default fuel (PyValue.other name) = some "null" := by
  match fuel, h with
  | f + 2, _ => rfl

/-- Shape of `json.dumps` with `DateTimeEncoder` on a dict: if one entry's
value encodes to `vout` (at the fuel the dict hands its entries), the
output text contains `"key": vout` for that entry. -/
theorem dumps_dte_dict_entry (pre post : List (String × PyValue)) (k : String)
    (v : PyValue) (vout : String)
    (hv : iterencode DateTimeEncoder.default (pyDepthDict (pre ++ (k, v) :: post) + 1)
      v = some vout) :
    ∃ a b : String,
      dumps DateTimeEncoder.default (PyValue.dict (pre ++ (k, v) :: post)) =
        some (a ++ (encodeStr k ++ ": " ++ vout) ++ b) := by
  set kvs : List (String × PyValue) := pre ++ (k, v) :: post with hkvs
  set fuel : Nat := pyDepthDict kvs + 1 with hfuel
  have hdepth : pyDepth (PyValue.dict kvs) = pyDepthDict kvs + 1 := by simp [pyDepth]
  have hunfold : dumps DateTimeEncoder.default (PyValue.dict kvs) =
      (optList (kvs.map (fun kv =>
          (iterencode DateTimeEncoder.default fuel kv.2).map
            (fun s => encodeStr kv.1 ++ ": " ++ s)))).map
        (fun parts => "\x7b" ++ joinComma parts ++ "\x7d") := by
    rw [dumps, hdepth]
    rfl
  have hmapsplit : kvs.map (fun kv =>
      (iterencode DateTimeEncoder.default fuel kv.2).map
        (fun s => encodeStr kv.1 ++ ": " ++ s)) =
      (pre.map (fun kv =>
        (iterencode DateTimeEncoder.default fuel kv.2).map
          (fun s => encodeStr kv.1 ++ ": " ++ s))) ++
      some (encodeStr k ++ ": " ++ vout) ::
      (post.map (fun kv =>
        (iterencode DateTimeEncoder.default fuel kv.2).map
          (fun s => encodeStr kv.1 ++ ": " ++ s))) := by
    rw [hkvs, List.map_append, List.map_cons]
    simp [hv]
  have hsome : ∀ (l : List (String × PyValue)), (∀ kv ∈ l, kv ∈ kvs) →
      ∀ o ∈ l.map (fun kv =>
        (iterencode DateTimeEncoder.default fuel kv.2).map
          (fun s => encodeStr kv.1 ++ ": " ++ s)), o.isSome := by
    intro l hsub o ho
    rcases List.mem_map.mp ho with ⟨kv, hkv, rfl⟩
    rw [optMap_isSome]
    exact iterencode_dte_isSome fuel kv.2
      (lt_of_le_of_lt (pyDepth_le_of_mem_dict (hsub kv hkv)) (by omega))
  obtain ⟨p1, p2, hp⟩ := optList_split _ _ _
    (hsome pre (fun kv hkv => by simp [hkvs, hkv]))
    (hsome post (fun kv hkv => by simp [hkvs, hkv]))
  obtain ⟨a, b, hab⟩ := joinComma_infix p1 (encodeStr k ++ ": " ++ vout) p2
  refine ⟨"\x7b" ++ a, b ++ "\x7d", ?_⟩
  rw [hunfold, hmapsplit, hp]
  simp only [Option.map_some']
  rw [hab]
  congr 1
  simp [String.append_assoc]

theorem providerOps_get_ec2_vm_list (pages : List (List EC2Instance)) :
    providerOps (get_ec2_vm_list pages).1 =
      pages.map (fun _ => ProviderOp.ec2List) := by
  induction pages with
  | nil => rfl
  | cons p ps ih =>
    simp [get_ec2_vm_list, providerOps, providerOpOf, describeRequest]

theorem providerOps_get_rds_db_list (pages : List (List RDSRecord)) :
    providerOps (get_rds_db_list pages).1 =
      pages.map (fun _ => ProviderOp.rdsList) := by
  induction pages with
  | nil => rfl
  | cons p ps ih =>
    simp [get_rds_db_list, providerOps, providerOpOf]

theorem providerOps_turnoff (lst : List EC2Instance) (dry_run : Bool)
    (beh : String → Option String) :
    providerOps (turnoff_ec2_vms lst dry_run beh) =
      lst.map (fun i => ProviderOp.ec2Stop i.id dry_run) := by
  induction lst with
  | nil => rfl
  | cons i rest ih =>
    cases hb : beh i.id <;>
      simp [turnoff_ec2_vms, providerOps, providerOpOf, hb] <;>
      simpa [providerOps] using ih

theorem providerOps_stop_rds_no_raise (lst : List RDSRecord) :
    providerOps (stop_rds_dbs lst false (fun _ => false)).1 =
      (lst.filter (fun r => !(r.DBInstanceStatus == "stopped"))).map
        (fun r => ProviderOp.rdsStop r.DBInstanceIdentifier) := by
  induction lst with
  | nil => rfl
  | cons r rest ih =>
    obtain ⟨s, hs⟩ := Option.isSome_iff_exists.mp (serializeRecord_isSome r)
    by_cases hst : r.DBInstanceStatus = "stopped"
    · simpa [stop_rds_dbs, hs, hst, providerOps, providerOpOf, List.filter_cons]
        using ih
    · have hst' : (r.DBInstanceStatus == "stopped") = false := by simpa using hst
      simpa [stop_rds_dbs, hs, hst', providerOps, providerOpOf, List.filter_cons]
        using ih

/-- Serializing a DB record whose field `k` encodes to `vout` yields text
containing `vout`. -/
theorem serializeRecord_field_infix (ident status : String)
    (pre post : List (String × PyValue)) (k : String) (v : PyValue) (vout : String)
    (hv : iterencode DateTimeEncoder.default
      (pyDepthDict ((("DBInstanceIdentifier", PyValue.str ident) ::
        ("DBInstanceStatus", PyValue.str status) :: pre) ++ (k, v) :: post) + 1) v =
      some vout) :
    ∃ a b : String,
      serializeRecord ⟨ident, status, pre ++ (k, v) :: post⟩ =
        some (a ++ vout ++ b) := by
  obtain ⟨a, b, hab⟩ := dumps_dte_dict_entry
    (("DBInstanceIdentifier", PyValue.str ident) ::
      ("DBInstanceStatus", PyValue.str status) :: pre) post k v vout hv
  refine ⟨a ++ (encodeStr k ++ ": "), b, ?_⟩
  have hrw : serializeRecord ⟨ident, status, pre ++ (k, v) :: post⟩ =
      dumps DateTimeEncoder.default (PyValue.dict
        ((("DBInstanceIdentifier", PyValue.str ident) ::
          ("DBInstanceStatus", PyValue.str status) :: pre) ++ (k, v) :: post)) := rfl
  rw [hrw, hab]
  congr 1
  simp [String.append_assoc]

theorem pyDepthDict_pos_of_field (pre post : List (String × PyValue))
    (k : String) (v : PyValue) (hd : pyDepth v = 1) :
    1 < pyDepthDict (pre ++ (k, v) :: post) + 1 := by
  have hmem : (k, v) ∈ pre ++ (k, v) :: post := by simp
  have hle : pyDepth v ≤ pyDepthDict (pre ++ (k, v) :: post) := by
    simpa using pyDepth_le_of_mem_dict hmem
  omega

/-! ## The claims -/

/-- C1: for every compute instance in the list passed to `turnoff_ec2_vms`,
exactly one stop request is attempted for that instance per invocation, in
list order: the sequence of EC2 stop requests in the trace is exactly the
sequence of ids of the list. -/
theorem claim_C1_ec2_stop_once_in_list_order (lst : List EC2Instance)
    (dry_run : Bool) (beh : String → Option String) :
    ec2StopIds (turnoff_ec2_vms lst dry_run beh) = lst.map EC2Instance.id :=
  turnoff_ec2_vms_ids lst dry_run beh

/-- C2: with the dry-run flag true, every EC2 stop call carries
`DryRun=true` (and `Hibernate=False`) unmutated, and the RDS stop path
issues no stop request for any record (and raises nothing), whatever the
records and provider behavior are. -/
theorem claim_C2_dry_run_passthrough_and_rds_skip (lst : List EC2Instance)
    (beh : String → Option String) (rlst : List RDSRecord)
    (rbeh : String → Bool) :
    ec2StopArgs (turnoff_ec2_vms lst true beh) =
      lst.map (fun i => (i.id, false, true)) ∧
    rdsStopIds (stop_rds_dbs rlst true rbeh).1 = [] ∧
    (stop_rds_dbs rlst true rbeh).2 = false :=
  ⟨turnoff_ec2_vms_args lst true beh, (stop_rds_dbs_dry_run rlst rbeh).1,
   (stop_rds_dbs_dry_run rlst rbeh).2⟩

/-- C3: with dry-run false (and no provider fault), a record whose
`DBInstanceStatus` is exactly `"stopped"` triggers no stop call and a no-op
notice is logged for it; every other record triggers exactly one stop call
keyed by its `DBInstanceIdentifier`, in list order. -/
theorem claim_C3_rds_stop_selection (lst : List RDSRecord) :
    rdsStopIds (stop_rds_dbs lst false (fun _ => false)).1 =
      (lst.filter (fun r => !(r.DBInstanceStatus == "stopped"))).map
        RDSRecord.DBInstanceIdentifier ∧
    ∀ r ∈ lst, r.DBInstanceStatus = "stopped" →
      Event.consoleLog ("DB Instance " ++ r.DBInstanceIdentifier ++ " is stopped") ∈
        (stop_rds_dbs lst false (fun _ => false)).1 :=
  ⟨(stop_rds_dbs_no_raise_ids lst).1,
   fun _ hr hst => stop_rds_dbs_notice hr hst⟩

theorem claim_C3_rds_stop_selection_witness :
    rdsStopIds (stop_rds_dbs lst3 false (fun _ => false)).1 = ["db-a"] ∧
    Event.consoleLog "DB Instance db-b is stopped" ∈
      (stop_rds_dbs lst3 false (fun _ => false)).1 := by
  refine ⟨?_, ?_⟩
  · rw [(claim_C3_rds_stop_selection lst3).1]; rfl
  · exact (claim_C3_rds_stop_selection lst3).2 ⟨"db-b", "stopped", []⟩
      (List.Mem.tail _ (List.Mem.head _)) rfl

/-- C4: an EC2 stop call that raises a `ClientError` is caught and logged,
and every other instance of the list still has its stop attempted, in
order: the full id sequence of stop requests is unchanged and the exception
text is printed. -/
theorem claim_C4_ec2_error_caught_continues (pre : List EC2Instance)
    (i : EC2Instance) (post : List EC2Instance) (dry_run : Bool)
    (beh : String → Option String) (msg : String) (h : beh i.id = some msg) :
    ec2StopIds (turnoff_ec2_vms (pre ++ i :: post) dry_run beh) =
      (pre ++ i :: post).map EC2Instance.id ∧
    Event.consoleLog ("Exception: " ++ msg) ∈
      turnoff_ec2_vms (pre ++ i :: post) dry_run beh :=
  ⟨turnoff_ec2_vms_ids _ _ _, turnoff_exception_logged pre i post dry_run beh msg h⟩

theorem claim_C4_ec2_error_caught_continues_witness :
    ec2StopIds (turnoff_ec2_vms [⟨"i-0"⟩, ⟨"i-1"⟩, ⟨"i-2"⟩] false beh4) =
      ["i-0", "i-1", "i-2"] ∧
    Event.consoleLog "Exception: boom" ∈
      turnoff_ec2_vms [⟨"i-0"⟩, ⟨"i-1"⟩, ⟨"i-2"⟩] false beh4 := by
  have h := claim_C4_ec2_error_caught_continues [⟨"i-0"⟩] ⟨"i-1"⟩ [⟨"i-2"⟩]
    false beh4 "boom" rfl
  exact ⟨h.1.trans rfl, h.2⟩

/-- C5: an RDS stop call that raises is not caught: the error propagates
out of `stop_rds_dbs` (result flag true), the records before the faulting
one got their usual treatment, the faulting one got exactly one stop call,
no later record has a stop attempted, and via `lambda_handler` the whole
invocation aborts. -/
theorem claim_C5_rds_error_aborts (pre : List RDSRecord) (r : RDSRecord)
    (post : List RDSRecord) (beh : String → Bool)
    (hpre : ∀ p ∈ pre, beh p.DBInstanceIdentifier = false)
    (hr : beh r.DBInstanceIdentifier = true)
    (hst : r.DBInstanceStatus ≠ "stopped") :
    rdsStopIds (stop_rds_dbs (pre ++ r :: post) false beh).1 =
      (pre.filter (fun p => !(p.DBInstanceStatus == "stopped"))).map
        RDSRecord.DBInstanceIdentifier ++ [r.DBInstanceIdentifier] ∧
    (stop_rds_dbs (pre ++ r :: post) false beh).2 = true ∧
    ∀ env : Env, env.rdsPages = [pre ++ r :: post] → env.rdsStopBeh = beh →
      (lambda_handler env).2 = true := by
  refine ⟨(stop_rds_dbs_abort pre r post beh hpre hr hst).1,
    (stop_rds_dbs_abort pre r post beh hpre hr hst).2, ?_⟩
  intro env hpages hbeh
  show (stop_rds_dbs (get_rds_db_list env.rdsPages).2 false env.rdsStopBeh).2 = true
  rw [hpages, hbeh, get_rds_db_list_records]
  simp only [List.flatten_cons, List.flatten_nil, List.append_nil]
  exact (stop_rds_dbs_abort pre r post beh hpre hr hst).2

theorem claim_C5_rds_error_aborts_witness :
    rdsStopIds (stop_rds_dbs (pre5 ++ r5 :: post5) false beh5).1 =
      ["db-0", "db-1"] ∧
    (stop_rds_dbs (pre5 ++ r5 :: post5) false beh5).2 = true ∧
    (lambda_handler env5).2 = true := by
  have h := claim_C5_rds_error_aborts pre5 r5 post5 beh5
    (by decide) (by decide) (by decide)
  exact ⟨by rw [h.1]; rfl, h.2.1, h.2.2 env5 rfl rfl⟩

/-- C6: `get_rds_db_list` returns the concatenation of the records of all
pages of the paginated listing response — every record of every page, in
page order, not only the first page. -/
theorem claim_C6_rds_pagination_drains (pages : List (List RDSRecord)) :
    (get_rds_db_list pages).2 = pages.flatten :=
  get_rds_db_list_records pages

/-- C7: serializing a DB record that contains a date or datetime field with
`DateTimeEncoder` does not raise, and the produced text contains that
field's ISO-8601 representation (which is escape-free ASCII). -/
theorem claim_C7_serialize_temporal_iso (ident status : String)
    (pre post : List (String × PyValue)) (k : String) (v : PyValue)
    (htemp : isTemporal v = true)
    (hsafe : ∀ c ∈ (isoOf v).data, jsonSafeChar c = true) :
    ∃ a b : String,
      serializeRecord ⟨ident, status, pre ++ (k, v) :: post⟩ =
        some (a ++ isoOf v ++ b) := by
  match v, htemp, hsafe with
  | PyValue.datetime iso, _, hsafe =>
    have hsafe' : ∀ c ∈ iso.data, jsonSafeChar c = true := hsafe
    have hv := iterencode_dte_datetime (pyDepthDict
      ((("DBInstanceIdentifier", PyValue.str ident) ::
        ("DBInstanceStatus", PyValue.str status) :: pre) ++
        (k, PyValue.datetime iso) :: post) + 1) iso
      (pyDepthDict_pos_of_field _ post k (PyValue.datetime iso) (by simp [pyDepth]))
    obtain ⟨a, b, hab⟩ := serializeRecord_field_infix ident status pre post k
      (PyValue.datetime iso) (encodeStr iso) hv
    rw [encodeStr_safe hsafe'] at hab
    refine ⟨a ++ "\"", "\"" ++ b, ?_⟩
    rw [hab]
    congr 1
    simp [String.append_assoc, isoOf]
  | PyValue.date iso, _, hsafe =>
    have hsafe' : ∀ c ∈ iso.data, jsonSafeChar c = true := hsafe
    have hv := iterencode_dte_date (pyDepthDict
      ((("DBInstanceIdentifier", PyValue.str ident) ::
        ("DBInstanceStatus", PyValue.str status) :: pre) ++
        (k, PyValue.date iso) :: post) + 1) iso
      (pyDepthDict_pos_of_field _ post k (PyValue.date iso) (by simp [pyDepth]))
    obtain ⟨a, b, hab⟩ := serializeRecord_field_infix ident status pre post k
      (PyValue.date iso) (encodeStr iso) hv
    rw [encodeStr_safe hsafe'] at hab
    refine ⟨a ++ "\"", "\"" ++ b, ?_⟩
    rw [hab]
    congr 1
    simp [String.append_assoc, isoOf]

theorem claim_C7_serialize_temporal_iso_witness :
    isTemporal (PyValue.datetime "2024-05-06T07:08:09") = true ∧
    ∃ a b : String,
      serializeRecord ⟨"db-1", "available", r7extra⟩ =
        some (a ++ "2024-05-06T07:08:09" ++ b) :=
  ⟨rfl, claim_C7_serialize_temporal_iso "db-1" "available" [] []
    "InstanceCreateTime" (PyValue.datetime "2024-05-06T07:08:09") rfl (by decide)⟩

/-- C8: the entry point always performs exactly the sequence: EC2 listing
requests, then one EC2 stop per listed instance with `DryRun=false`, then
RDS listing requests, then one RDS stop per non-stopped record — with no
branching and never a dry run. -/
theorem claim_C8_handler_fixed_sequence (env : Env)
    (hbeh : ∀ s, env.rdsStopBeh s = false) :
    providerOps (lambda_handler env).1 =
      env.ec2Pages.map (fun _ => ProviderOp.ec2List) ++
      env.ec2Pages.flatten.map (fun i => ProviderOp.ec2Stop i.id false) ++
      env.rdsPages.map (fun _ => ProviderOp.rdsList) ++
      (env.rdsPages.flatten.filter (fun r => !(r.DBInstanceStatus == "stopped"))).map
        (fun r => ProviderOp.rdsStop r.DBInstanceIdentifier) := by
  have hb : env.rdsStopBeh = fun _ => false := funext hbeh
  have h1 := providerOps_get_ec2_vm_list env.ec2Pages
  have h2 := providerOps_turnoff env.ec2Pages.flatten false env.ec2StopBeh
  have h3 := providerOps_get_rds_db_list env.rdsPages
  have h4 := providerOps_stop_rds_no_raise env.rdsPages.flatten
  simp only [providerOps] at h1 h2 h3 h4 ⊢
  simp only [lambda_handler, hb, get_ec2_vm_list_records, get_rds_db_list_records,
    List.filterMap_cons, List.filterMap_append, providerOpOf]
  rw [h1, h2, h3, h4]

theorem claim_C8_handler_fixed_sequence_witness :
    providerOps (lambda_handler env8).1 =
      [ProviderOp.ec2List, ProviderOp.ec2Stop "i-0" false,
       ProviderOp.rdsList, ProviderOp.rdsStop "db-0"] := by
  rw [claim_C8_handler_fixed_sequence env8 (fun _ => rfl)]
  rfl

/-- C9: `DateTimeEncoder.default` returns Python `None` for any value that
is not a date or datetime (it never raises like the base method does), so a
record containing a non-temporal non-serializable value serializes with
that value encoded as JSON `null` instead of raising. -/
theorem claim_C9_default_none_encodes_null :
    (∀ v : PyValue, isTemporal v = false →
      DateTimeEncoder.default v = some PyValue.null) ∧
    (∀ (ident status k name : String) (pre post : List (String × PyValue)),
      ∃ a b : String,
        serializeRecord ⟨ident, status, pre ++ (k, PyValue.other name) :: post⟩ =
          some (a ++ "null" ++ b)) := by
  constructor
  · intro v hv
    cases v <;> first
      | rfl
      | simp [isTemporal] at hv
  · intro ident status k name pre post
    have hv := iterencode_dte_other (pyDepthDict
      ((("DBInstanceIdentifier", PyValue.str ident) ::
        ("DBInstanceStatus", PyValue.str status) :: pre) ++
        (k, PyValue.other name) :: post) + 1) name
      (pyDepthDict_pos_of_field _ post k (PyValue.other name) (by simp [pyDepth]))
    exact serializeRecord_field_infix ident status pre post k
      (PyValue.other name) "null" hv

theorem claim_C9_default_none_encodes_null_witness :
    DateTimeEncoder.default (PyValue.int 3) = some PyValue.null ∧
    ∃ a b : String,
      serializeRecord ⟨"db-2", "available", r9extra⟩ = some (a ++ "null" ++ b) :=
  ⟨claim_C9_default_none_encodes_null.1 (PyValue.int 3) rfl,
   claim_C9_default_none_encodes_null.2 "db-2" "available" "Endpoint" "Endpoint" [] []⟩

/-- C10 (counterexample): the original claim — that because `MaxResults=20`
is passed, the compute list of one invocation holds at most 20 instances
even when more running instances exist — is false: with 21 running
instances the provider answers with pages of at most 20 records each, and
`get_ec2_vm_list`, which drains the auto-paginating collection, returns all
21. -/
theorem claim_C10_counterexample :
    (∀ p ∈ ([(List.range 20).map (fun n => EC2Instance.mk ("i-" ++ toString n)),
        [EC2Instance.mk "i-20"]] : List (List EC2Instance)), p.length ≤ 20) ∧
    (get_ec2_vm_list [(List.range 20).map (fun n => EC2Instance.mk ("i-" ++ toString n)),
        [EC2Instance.mk "i-20"]]).2.length = 21 := by
  constructor
  · decide
  · rfl

/-- C10 (amended): `get_ec2_vm_list` passes `MaxResults=20` — a page-size
limit — together with the running-state filter on every listing request,
and returns the concatenation of all pages the provider yields, so the
result is not capped at 20 when more running instances exist. -/
theorem claim_C10_amended_page_size (pages : List (List EC2Instance)) :
    (get_ec2_vm_list pages).1 = pages.map (fun _ => describeRequest) ∧
    describeRequest = Event.ec2Describe "instance-state-code" ["16"] 20 ∧
    (get_ec2_vm_list pages).2 = pages.flatten :=
  ⟨rfl, rfl, get_ec2_vm_list_records pages⟩

end ShutdownAws
